import Mathlib

/-!
Verification of the reconciliation engine in `main.py`
(class `ReconciliadorBasesOtimizado`).

The engine compares two in-memory tables (pandas DataFrames) and emits a
list of divergence records.  The embedding below follows the source:

* `validar` embeds `validar_estrutura` (lines 72-94): when the two column
  sets differ, both frames are projected onto `list(set1 ∩ set2)`.  CPython
  iterates a set of strings in an order that depends on the per-process
  hash salt, so `list(...)` of a set is an arbitrary enumeration of its
  members; the enumerations a concrete run happens to produce are passed
  explicitly as a `SetOrders` value, constrained by `enumInter` / `enumDiff`.
* `preparar` embeds `preparar_dados_para_comparacao` (lines 96-117).
* `identificar` embeds `identificar_divergencias_com_merge` (lines 119-203),
  with `mergeRows` embedding the documented semantics of
  `pd.merge(..., on=keys, how='outer', indicator=True)`: rows with equal key
  tuples are cross-paired (full outer-join fan-out, NaN keys matching each
  other as pandas merge keys do), unmatched left rows become `left_only`,
  unmatched right rows become `right_only`, in left-frame order with the
  unmatched right rows appended.  Reading a label that is absent from the
  merged frame (pandas raises `KeyError`) is modelled with `Except.error`.
* `fastRecords` embeds `usar_pandas_compare_quando_possivel` (lines 205-253).
* `reconciliar` embeds the engine part of `executar_reconciliacao_otimizada`
  (lines 311-333): validate, then the compare() fast path when applicable,
  otherwise the merge path.

Cell values are modelled symbolically (strings, integers, booleans, NaN);
float formatting is irrelevant to the claims checked here.
-/

namespace Reconciliate

/-- A cell value as loaded by pandas: string, integer, boolean, or
missing (NaN/None). -/
inductive PyVal where
  | s (v : String)
  | i (v : Int)
  | b (v : Bool)
  | null
deriving DecidableEq

/-- pd.isna on a scalar cell. -/
def isna : PyVal → Bool
  | .null => true
  | _ => false

/-- Python str() on a scalar, as used for the record field 'chave'. -/
def pyToString : PyVal → String
  | .s v => v
  | .i v => toString v
  | .b true => "True"
  | .b false => "False"
  | .null => "nan"

/-- Python repr() on a scalar, as used by str() on a list of key values. -/
def pyRepr : PyVal → String
  | .s v => "\x27" ++ v ++ "\x27"
  | .i v => toString v
  | .b true => "True"
  | .b false => "False"
  | .null => "nan"

/-- A DataFrame: ordered column labels and ordered rows, each row holding
one value per column position.  pandas frames are rectangular. -/
structure Table where
  cols : List String
  rows : List (List PyVal)
deriving DecidableEq

/-- df cell access by column label: the value at the position of the
label among the columns (rectangularity of real frames makes the
missing-position default unreachable). -/
def lookupCell (cols : List String) (row : List PyVal) (c : String) : PyVal :=
  match cols, row with
  | [], _ => PyVal.null
  | _ :: _, [] => PyVal.null
  | c2 :: cs, v :: vs => if c2 == c then v else lookupCell cs vs c

/-- df[cs]: keep columns cs in the given order. -/
def projectTable (t : Table) (cs : List String) : Table :=
  ⟨cs, t.rows.map (fun r => cs.map (fun c => lookupCell t.cols r c))⟩

/-- set(cols1) == set(cols2), the test on line 81. -/
def sameColSet (a b : List String) : Bool :=
  a.all (fun c => b.contains c) && b.all (fun c => a.contains c)

/-- The set enumerations one concrete interpreter run produces for
list(set1 ∩ set2), list(set1 - set2) and list(set2 - set1).  CPython
string hashing is salted per process, so these orders are unspecified. -/
structure SetOrders where
  inter : List String
  only1 : List String
  only2 : List String
deriving DecidableEq

/-- l is a possible CPython enumeration of set(a) ∩ set(b). -/
def enumInter (l a b : List String) : Prop :=
  l.Nodup ∧ (∀ c ∈ a, (c ∈ l ↔ c ∈ b)) ∧ ∀ c ∈ l, c ∈ a

/-- l is a possible CPython enumeration of set(a) - set(b). -/
def enumDiff (l a b : List String) : Prop :=
  l.Nodup ∧ (∀ c ∈ a, (c ∈ l ↔ c ∉ b)) ∧ ∀ c ∈ l, c ∈ a

instance (l a b : List String) : Decidable (enumInter l a b) := by
  unfold enumInter; infer_instance

instance (l a b : List String) : Decidable (enumDiff l a b) := by
  unfold enumDiff; infer_instance

/-- validar_estrutura, lines 72-94: when the column sets differ, both
frames are replaced by their projection onto list(set1 ∩ set2); the
dropped-column lists recorded in resumo_stats are σ.only1 / σ.only2. -/
def validar (σ : SetOrders) (A B : Table) : Table × Table :=
  if sameColSet A.cols B.cols then (A, B)
  else (projectTable A σ.inter, projectTable B σ.inter)

/-- The key specification: None, a single column name, or a list of
column names (the script's chave_primaria). -/
inductive KeySpec where
  | none
  | single (c : String)
  | multi (cs : List String)
deriving DecidableEq

/-- The synthetic row-index column added when no key is given. -/
def idxCol : String := "__linha_original__"

/-- df['__linha_original__'] = df.index (lines 105-106). -/
def addIndexCol (t : Table) : Table :=
  ⟨t.cols ++ [idxCol], t.rows.enum.map (fun p => p.2 ++ [PyVal.i p.1])⟩

/-- preparar_dados_para_comparacao, lines 96-117: either add the index
column and merge on it, or pass the key through (a str or a list). -/
def preparar (A B : Table) (key : KeySpec) : Table × Table × (String ⊕ List String) :=
  match key with
  | .none => (addIndexCol A, addIndexCol B, Sum.inl idxCol)
  | .single c => (A, B, Sum.inl c)
  | .multi cs => (A, B, Sum.inr cs)

/-- The list of merge key columns named by chave_merge. -/
def keyColsOf : String ⊕ List String → List String
  | Sum.inl c => [c]
  | Sum.inr cs => cs

/-- The tuple of key values of a row. -/
def keyOf (cols : List String) (keys : List String) (r : List PyVal) : List PyVal :=
  keys.map (fun k => lookupCell cols r k)

/-- One row of the merged frame, reduced to what the script reads from it:
the key tuple, the left-frame row and/or the right-frame row, and the
_merge indicator (encoded by the constructor). -/
inductive MRow where
  | both (k : List PyVal) (ra rb : List PyVal)
  | leftOnly (k : List PyVal) (ra : List PyVal)
  | rightOnly (k : List PyVal) (rb : List PyVal)
deriving DecidableEq

def isBoth : MRow → Bool
  | .both _ _ _ => true
  | _ => false

/-- pd.merge(p1, p2, on=keys, how='outer', indicator=True): every pair of
rows with equal key tuples is paired (full fan-out), left rows without a
match appear as left_only, right rows without a match as right_only. -/
def mergeRows (c1 : List String) (rs1 : List (List PyVal)) (c2 : List String)
    (rs2 : List (List PyVal)) (keys : List String) : List MRow :=
  (rs1.flatMap (fun ra =>
    let ms := rs2.filter (fun rb => keyOf c2 keys rb == keyOf c1 keys ra)
    if ms.isEmpty then [MRow.leftOnly (keyOf c1 keys ra) ra]
    else ms.map (fun rb => MRow.both (keyOf c1 keys ra) ra rb)))
  ++ (rs2.filter (fun rb =>
        rs1.all (fun ra => !(keyOf c1 keys ra == keyOf c2 keys rb)))).map
      (fun rb => MRow.rightOnly (keyOf c2 keys rb) rb)

/-- pd.merge raises KeyError when a requested key column is missing from
either frame; otherwise it returns the merged rows. -/
def pdMerge (t1 t2 : Table) (keys : List String) : Except String (List MRow) :=
  if keys.all (fun k => t1.cols.contains k) && keys.all (fun k => t2.cols.contains k) then
    Except.ok (mergeRows t1.cols t1.rows t2.cols t2.rows keys)
  else
    Except.error "KeyError: merge key column not found in frame"

/-- One divergence record (one dict appended to divergencias_lista). -/
structure Record where
  chave : String
  tipo : String
  coluna : String
  valor_base1 : PyVal
  valor_base2 : PyVal
  descricao : String
deriving DecidableEq

/-- str(chave_valor) where chave_valor is linha[chave_merge] for a str key
and [linha[c] for c in chave_merge] for a list key (lines 141, 152, 169). -/
def renderKey (km : String ⊕ List String) (k : List PyVal) : String :=
  match km, k with
  | Sum.inl _, [v] => pyToString v
  | Sum.inl _, _ => ""
  | Sum.inr _, vs => "[" ++ String.intercalate ", " (vs.map pyRepr) ++ "]"

/-- The record built for a left_only merged row (lines 142-149). -/
def mkFaltB2 (km : String ⊕ List String) (k : List PyVal) : Record :=
  { chave := renderKey km k, tipo := "LINHA_FALTANDO_BASE2", coluna := "TODAS",
    valor_base1 := PyVal.s "LINHA_EXISTE", valor_base2 := PyVal.s "LINHA_INEXISTENTE",
    descricao := "Linha com chave " ++ renderKey km k ++ " existe na Base 1 mas não na Base 2" }

/-- The record built for a right_only merged row (lines 153-160). -/
def mkFaltB1 (km : String ⊕ List String) (k : List PyVal) : Record :=
  { chave := renderKey km k, tipo := "LINHA_FALTANDO_BASE1", coluna := "TODAS",
    valor_base1 := PyVal.s "LINHA_INEXISTENTE", valor_base2 := PyVal.s "LINHA_EXISTE",
    descricao := "Linha com chave " ++ renderKey km k ++ " existe na Base 2 mas não na Base 1" }

def faltRecB2 (km : String ⊕ List String) : MRow → Option Record
  | .leftOnly k _ => some (mkFaltB2 km k)
  | _ => none

def faltRecB1 (km : String ⊕ List String) : MRow → Option Record
  | .rightOnly k _ => some (mkFaltB1 km k)
  | _ => none

/-- Lines 178-191: a NaN/NaN cell pair is skipped; any other pair holding
a NaN or unequal values yields a VALOR_DIFERENTE record, with a NaN side
stored as the string 'NULL'. -/
def compareCell (chv coluna : String) (v1 v2 : PyVal) : Option Record :=
  if isna v1 && isna v2 then none
  else if isna v1 || isna v2 || !(v1 == v2) then
    some { chave := chv, tipo := "VALOR_DIFERENTE", coluna := coluna,
           valor_base1 := if !(isna v1) then v1 else PyVal.s "NULL",
           valor_base2 := if !(isna v2) then v2 else PyVal.s "NULL",
           descricao := "Divergência na chave " ++ chv ++ ", coluna \"" ++ coluna ++ "\"" }
  else none

/-- Line 166: [col for col in df1.columns if col != chave_merge and
col != '__linha_original__'].  When chave_merge is a list, the test
col != chave_merge compares a string with a list and is always True, so
no key column is excluded. -/
def comparisonCols (cols1 : List String) (km : String ⊕ List String) : List String :=
  cols1.filter (fun c =>
    (match km with
     | Sum.inl s => !(c == s)
     | Sum.inr _ => true) && !(c == idxCol))

/-- Reading linha[f"{c}_base1"] or linha[f"{c}_base2"] from a merged row:
merge suffixes exactly the columns present in both frames that are not
key columns, so only those labels exist; any other label raises KeyError
(modelled as none). -/
def getSuffixed (c1 c2 : List String) (keys : List String) (c : String)
    (own : List String) (row : List PyVal) : Option PyVal :=
  if c1.contains c && c2.contains c && !(keys.contains c) then
    some (lookupCell own row c)
  else none

/-- The inner loop of lines 171-191 for one merged row present in both
frames: read both suffixed cells for each comparison column (KeyError if
a label is absent) and collect the emitted records. -/
def collectCells (c1 c2 : List String) (keys : List String)
    (km : String ⊕ List String) (k ra rb : List PyVal) :
    List String → Except String (List Record)
  | [] => Except.ok []
  | c :: cs =>
    match getSuffixed c1 c2 keys c c1 ra, getSuffixed c1 c2 keys c c2 rb with
    | some v1, some v2 =>
      match collectCells c1 c2 keys km k ra rb cs with
      | Except.ok rest => Except.ok ((compareCell (renderKey km k) c v1 v2).toList ++ rest)
      | Except.error e => Except.error e
    | _, _ => Except.error ("KeyError: " ++ c ++ "_base1")

/-- The outer loop of lines 168-191 over the merged rows present in both
frames. -/
def collectBoth (c1 c2 : List String) (keys : List String)
    (km : String ⊕ List String) (compCols : List String) :
    List MRow → Except String (List Record)
  | [] => Except.ok []
  | MRow.both k ra rb :: ms =>
    match collectCells c1 c2 keys km k ra rb compCols,
          collectBoth c1 c2 keys km compCols ms with
    | Except.ok rs, Except.ok rest => Except.ok (rs ++ rest)
    | Except.error e, _ => Except.error e
    | Except.ok _, Except.error e => Except.error e
  | MRow.leftOnly _ _ :: ms => collectBoth c1 c2 keys km compCols ms
  | MRow.rightOnly _ _ :: ms => collectBoth c1 c2 keys km compCols ms

/-- identificar_divergencias_com_merge, lines 119-203, on two frames that
already went through validar_estrutura: prepare, outer-merge, then emit
the missing-row records (left_only then right_only) followed by the
value-mismatch records of the rows present in both frames. -/
def identificar (A B : Table) (key : KeySpec) : Except String (List Record) :=
  match preparar A B key with
  | (P1, P2, km) =>
    match pdMerge P1 P2 (keyColsOf km) with
    | Except.error e => Except.error e
    | Except.ok merged =>
      match collectBoth P1.cols P2.cols (keyColsOf km) km
          (comparisonCols A.cols km) (merged.filter isBoth) with
      | Except.error e => Except.error e
      | Except.ok vals =>
        Except.ok ((merged.filterMap (faltRecB2 km)) ++
                   (merged.filterMap (faltRecB1 km)) ++ vals)

/-- The divergence list of a merge-path run, the empty list on an
uncaught exception (used only to state claims about successful runs). -/
def runRecords (A B : Table) (key : KeySpec) : List Record :=
  match identificar A B key with
  | Except.ok l => l
  | Except.error _ => []

/-- A pandas axis label: a plain column label, or a level pair such as
the (col, 'self') labels of a compare() result with align_axis=1. -/
inductive PLabel where
  | single (c : String)
  | pair (c t : String)
deriving DecidableEq

/-- The applicability test of usar_pandas_compare_quando_possivel,
lines 207-209: same number of rows, identical column lists, no key. -/
def fastApplicable (A B : Table) (key : KeySpec) : Bool :=
  (A.rows.length == B.rows.length) && (A.cols == B.cols) && (key == KeySpec.none)

/-- The record-building loop of usar_pandas_compare_quando_possivel,
lines 217-241.  compare() is called with align_axis=0, so the result
keeps the plain column labels on the column axis; the loop then tests
(col, 'self') in comparison.columns, which never holds for a level pair
against plain labels, so the body that would append a record is
unreachable and the function always returns zero records. -/
def fastRecords (A B : Table) : List Record :=
  let compCols : List PLabel := A.cols.map PLabel.single
  (List.range A.rows.length).flatMap (fun idx =>
    A.cols.filterMap (fun c =>
      if compCols.contains (PLabel.pair c "self") &&
         compCols.contains (PLabel.pair c "other") then
        let v1 := lookupCell A.cols (A.rows.getD idx []) c
        let v2 := lookupCell B.cols (B.rows.getD idx []) c
        let vs := if v1 == v2 then PyVal.null else v1
        let vo := if v1 == v2 then PyVal.null else v2
        if !(isna vs && isna vo) then
          some { chave := toString idx, tipo := "VALOR_DIFERENTE", coluna := c,
                 valor_base1 := if !(isna vs) then vs else PyVal.s "NULL",
                 valor_base2 := if !(isna vo) then vo else PyVal.s "NULL",
                 descricao := "Divergência na linha " ++ toString idx ++ ", coluna \"" ++ c ++ "\"" }
        else none
      else none))

/-- The engine part of executar_reconciliacao_otimizada, lines 311-333:
validate the structures, then use the compare() fast path when it
applies, otherwise the merge path. -/
def reconciliar (σ : SetOrders) (A B : Table) (key : KeySpec) : Except String (List Record) :=
  match validar σ A B with
  | (A2, B2) =>
    if fastApplicable A2 B2 key then Except.ok (fastRecords A2 B2)
    else identificar A2 B2 key

/-- The value-mismatch records one merged row contributes when every
comparison-column label is readable (the error-free shape of
collectCells; rows not present in both frames contribute nothing). -/
def bothRecords (c1 c2 : List String) (km : String ⊕ List String)
    (compCols : List String) : MRow → List Record
  | MRow.both k ra rb =>
    compCols.filterMap (fun c =>
      compareCell (renderKey km k) c (lookupCell c1 ra c) (lookupCell c2 rb c))
  | _ => []

/-- Total characterization of the merge path's output for a single key
column present in both frames; identificar_single_ok below shows that
identificar computes exactly this list. -/
def mergePathRecords (A B : Table) (s : String) : List Record :=
  let km : String ⊕ List String := Sum.inl s
  let merged := mergeRows A.cols A.rows B.cols B.rows [s]
  (merged.filterMap (faltRecB2 km)) ++ (merged.filterMap (faltRecB1 km)) ++
  (merged.filter isBoth).flatMap (bothRecords A.cols B.cols km (comparisonCols A.cols km))

deriving instance DecidableEq for Except

/-- Concrete instance for C2: table A holds two rows with key 1, table B
one row with key 1. -/
def tblC2A (x1 x2 : PyVal) : Table := ⟨["k", "v"], [[PyVal.i 1, x1], [PyVal.i 1, x2]]⟩

def tblC2B (y : PyVal) : Table := ⟨["k", "v"], [[PyVal.i 1, y]]⟩

/-- Concrete instance for C3: a two-column key over a table that has one
row, so the merged frame has one row present in both frames. -/
def tblC3 : Table := ⟨["k1", "k2", "v"], [[PyVal.i 1, PyVal.i 2, PyVal.i 3]]⟩

/-- Concrete instance for C4's witness. -/
def tblC4 : Table := ⟨["a"], [[PyVal.i 1]]⟩

/-- Concrete instance for C5: duplicate key values with different
payloads. -/
def tblC5 : Table := ⟨["k", "v"], [[PyVal.i 1, PyVal.i 10], [PyVal.i 1, PyVal.i 20]]⟩

/-- Concrete instance for C5's amended witness: unique key values. -/
def tblC5u : Table := ⟨["k", "v"], [[PyVal.i 1, PyVal.s "a"], [PyVal.i 2, PyVal.s "b"]]⟩

/-- Concrete instances for C6's witness. -/
def tblC6A : Table := ⟨["k", "v"], [[PyVal.i 1, PyVal.i 10], [PyVal.i 2, PyVal.i 20]]⟩

def tblC6B : Table := ⟨["k", "v"], [[PyVal.i 1, PyVal.i 10]]⟩

/-- Concrete instances for C7: same shape, same columns, one differing
cell, no key, so the compare() fast path applies. -/
def tblC7A : Table := ⟨["x"], [[PyVal.i 1]]⟩

def tblC7B : Table := ⟨["x"], [[PyVal.i 2]]⟩

/-- Concrete instances for C8: overlapping but different column sets, and
a set enumeration that does not follow table A's column order. -/
def tblC8A : Table := ⟨["x", "y", "k"], [[PyVal.i 1, PyVal.i 2, PyVal.i 3]]⟩

def tblC8B : Table := ⟨["y", "x", "k", "z"], [[PyVal.i 2, PyVal.i 1, PyVal.i 3, PyVal.i 4]]⟩

def ordC8 : SetOrders := ⟨["k", "x", "y"], [], ["z"]⟩

/-- Concrete instances for C9: two runs over the same inputs whose set
enumerations differ only in order. -/
def tblC9A : Table := ⟨["k", "a", "b"], [[PyVal.i 0, PyVal.i 1, PyVal.i 2]]⟩

def tblC9B : Table := ⟨["k", "a", "b", "c"], [[PyVal.i 0, PyVal.i 9, PyVal.i 8, PyVal.i 7]]⟩

def ordC9a : SetOrders := ⟨["k", "a", "b"], [], ["c"]⟩

def ordC9b : SetOrders := ⟨["k", "b", "a"], [], ["c"]⟩

/-- Concrete instances for C9's amended witness: equal column sets. -/
def tblC9eqA : Table := ⟨["x"], [[PyVal.i 1]]⟩

def tblC9eqB : Table := ⟨["x"], [[PyVal.i 2]]⟩

/-! Helper lemmas. -/

theorem contains_iff (l : List String) (c : String) : l.contains c = true ↔ c ∈ l :=
  List.elem_iff

theorem compareCell_self (chv c : String) (v : PyVal) : compareCell chv c v v = none := by
  cases v <;> simp [compareCell, isna]

theorem compareCell_tipo {chv c : String} {v1 v2 : PyVal} {r : Record}
    (h : compareCell chv c v1 v2 = some r) : r.tipo = "VALOR_DIFERENTE" := by
  unfold compareCell at h
  split at h
  · exact absurd h (by simp)
  · split at h
    · injection h with h2
      rw [← h2]
    · exact absurd h (by simp)

theorem compareCell_coluna {chv c : String} {v1 v2 : PyVal} {r : Record}
    (h : compareCell chv c v1 v2 = some r) : r.coluna = c := by
  unfold compareCell at h
  split at h
  · exact absurd h (by simp)
  · split at h
    · injection h with h2
      rw [← h2]
    · exact absurd h (by simp)

/-- C10: a null cell in an emitted ValueMismatch record is rendered as the
literal string 'NULL', so the record built from (string 'NULL', null) shows
'NULL' on both sides, and the record built from (null, "x") is identical to
the record built from (string 'NULL', "x"): the Null marker is not distinct
from the string value 'NULL'. -/
theorem c10_null_marker_collision :
    (compareCell "7" "c" (PyVal.s "NULL") PyVal.null).map
        (fun r => (r.valor_base1, r.valor_base2)) =
      some (PyVal.s "NULL", PyVal.s "NULL") ∧
    compareCell "7" "c" PyVal.null (PyVal.s "x") =
      compareCell "7" "c" (PyVal.s "NULL") (PyVal.s "x") := by
  exact ⟨rfl, rfl⟩

/-- C2: with key column k, two rows in A carrying k=1 (payloads x1, x2) and
one row in B carrying k=1 (payload y), the outer merge produces exactly two
pairs for k=1, each pairing one A-row with the single B-row; nothing is
dropped and the merge path returns a result instead of raising. -/
theorem c2_duplicate_key_fanout (x1 x2 y : PyVal) :
    mergeRows (tblC2A x1 x2).cols (tblC2A x1 x2).rows
        (tblC2B y).cols (tblC2B y).rows ["k"] =
      [MRow.both [PyVal.i 1] [PyVal.i 1, x1] [PyVal.i 1, y],
       MRow.both [PyVal.i 1] [PyVal.i 1, x2] [PyVal.i 1, y]] ∧
    ∃ l, identificar (tblC2A x1 x2) (tblC2B y) (KeySpec.single "k") = Except.ok l := by
  exact ⟨rfl, ⟨_, rfl⟩⟩

/-- C3: under the two-column key [k1, k2] the comparison-column list still
contains both key columns (the test col != chave_merge compares a string
with a list and never excludes anything), and the run then aborts with a
KeyError when it reads the non-existent suffixed label k1_base1 — the key
columns are not excluded from value comparison as claimed. -/
theorem c3_multi_key_columns_compared_crash :
    ("k1" ∈ comparisonCols tblC3.cols (Sum.inr ["k1", "k2"]) ∧
     "k2" ∈ comparisonCols tblC3.cols (Sum.inr ["k1", "k2"])) ∧
    identificar tblC3 tblC3 (KeySpec.multi ["k1", "k2"]) =
      Except.error "KeyError: k1_base1" := by
  decide

/-- C5 counterexample: reconciling the two-row table tblC5 (both rows carry
key 1) against itself under key k yields a non-empty divergence list — the
outer-join fan-out cross-pairs the duplicate keys and reports two value
mismatches, refuting the claim for arbitrary tables. -/
theorem c5_self_reconcile_counterexample :
    runRecords tblC5 tblC5 (KeySpec.single "k") ≠ [] ∧
    (runRecords tblC5 tblC5 (KeySpec.single "k")).countP
        (fun r => r.tipo == "VALOR_DIFERENTE") = 2 := by
  decide

/-- C7: on two same-shape keyless tables that differ in one cell the fast
path applies and returns zero records (its conversion loop guards on the
label (col, 'self') which never occurs among the plain column labels of an
align_axis=0 compare() result), while the merge path reports the one value
mismatch — the two implementations do not produce identical divergence
sets. -/
theorem c7_fast_path_empty_vs_merge :
    fastApplicable tblC7A tblC7B KeySpec.none = true ∧
    fastRecords tblC7A tblC7B = [] ∧
    runRecords tblC7A tblC7B KeySpec.none ≠ [] ∧
    (runRecords tblC7A tblC7B KeySpec.none).countP
        (fun r => r.tipo == "VALOR_DIFERENTE") = 1 := by
  decide

/-- C8 counterexample: ordC8.inter is a legitimate enumeration of the
intersection of the two column sets, yet the projected column order
[k, x, y] differs from table A's order restricted to the common columns
([x, y, k]) — the Structure Validator does not preserve A's column
order. -/
theorem c8_projection_order_counterexample :
    enumInter ordC8.inter tblC8A.cols tblC8B.cols ∧
    (validar ordC8 tblC8A tblC8B).1.cols = ["k", "x", "y"] ∧
    tblC8A.cols.filter (fun c => tblC8B.cols.contains c) = ["x", "y", "k"] ∧
    (validar ordC8 tblC8A tblC8B).1.cols ≠
      tblC8A.cols.filter (fun c => tblC8B.cols.contains c) := by
  decide

/-- C9 counterexample: two runs over identical inputs and the same key,
whose interpreter set enumerations of the common columns differ only in
order (both are legitimate), produce different ordered divergence
sequences — the run is not deterministic across interpreter processes. -/
theorem c9_determinism_counterexample :
    enumInter ordC9a.inter tblC9A.cols tblC9B.cols ∧
    enumInter ordC9b.inter tblC9A.cols tblC9B.cols ∧
    reconciliar ordC9a tblC9A tblC9B (KeySpec.single "k") ≠
      reconciliar ordC9b tblC9A tblC9B (KeySpec.single "k") := by
  decide

theorem filterMap_filter_col (f : String → Option Record)
    (hf : ∀ x r, f x = some r → r.coluna = x) :
    ∀ (l : List String), l.Nodup → ∀ c : String,
      (l.filterMap f).filter (fun r => r.coluna == c) =
        if c ∈ l then (f c).toList else [] := by
  intro l
  induction l with
  | nil => intro _ c; simp
  | cons x xs ih =>
    intro hnd c
    have hx : x ∉ xs := (List.nodup_cons.1 hnd).1
    have hxs : xs.Nodup := (List.nodup_cons.1 hnd).2
    cases hfx : f x with
    | none =>
      rw [List.filterMap_cons_none hfx]
      by_cases hxc : x = c
      · subst hxc
        rw [ih hxs x, if_neg hx, if_pos (List.mem_cons_self x xs), hfx]
        rfl
      · have hmm : (c ∈ x :: xs) ↔ c ∈ xs := by
          rw [List.mem_cons]
          exact ⟨fun h => h.elim (fun h2 => absurd h2.symm hxc) id, Or.inr⟩
        rw [ih hxs c]
        by_cases hcxs : c ∈ xs
        · rw [if_pos hcxs, if_pos (hmm.2 hcxs)]
        · rw [if_neg hcxs, if_neg (fun h => hcxs (hmm.1 h))]
    | some r =>
      have hcol : r.coluna = x := hf x r hfx
      rw [List.filterMap_cons_some hfx]
      by_cases hxc : x = c
      · subst hxc
        have hrc : (r.coluna == x) = true := by simp [hcol]
        rw [List.filter_cons, if_pos hrc, ih hxs x, if_neg hx,
          if_pos (List.mem_cons_self x xs), hfx]
        rfl
      · have hrc : ¬ ((r.coluna == c) = true) := by
          simp [hcol]
          exact hxc
        have hmm : (c ∈ x :: xs) ↔ c ∈ xs := by
          rw [List.mem_cons]
          exact ⟨fun h => h.elim (fun h2 => absurd h2.symm hxc) id, Or.inr⟩
        rw [List.filter_cons, if_neg hrc, ih hxs c]
        by_cases hcxs : c ∈ xs
        · rw [if_pos hcxs, if_pos (hmm.2 hcxs)]
        · rw [if_neg hcxs, if_neg (fun h => hcxs (hmm.1 h))]

/-- C1: for an aligned pair with both rows present and a comparison column
c, a (null, null) cell pair contributes no record, while a cell pair with
exactly one null contributes exactly one VALOR_DIFERENTE record whose
non-null side is the original value and whose null side is the marker
string 'NULL' — which is neither the integer 0 nor the empty string —
whichever side holds the null. -/
theorem c1_null_cell_semantics (compCols : List String) (hnd : compCols.Nodup)
    (c : String) (hc : c ∈ compCols) (chv : String) (va vb : String → PyVal) :
    ((isna (va c) = true ∧ isna (vb c) = true) →
      ((compCols.filterMap (fun x => compareCell chv x (va x) (vb x))).filter
        (fun r => r.coluna == c)) = []) ∧
    (isna (va c) ≠ isna (vb c) →
      ∃ r, ((compCols.filterMap (fun x => compareCell chv x (va x) (vb x))).filter
          (fun r => r.coluna == c)) = [r] ∧
        r.tipo = "VALOR_DIFERENTE" ∧
        (isna (va c) = false → r.valor_base1 = va c) ∧
        (isna (va c) = true → r.valor_base1 = PyVal.s "NULL") ∧
        (isna (vb c) = false → r.valor_base2 = vb c) ∧
        (isna (vb c) = true → r.valor_base2 = PyVal.s "NULL") ∧
        PyVal.s "NULL" ≠ PyVal.i 0 ∧ PyVal.s "NULL" ≠ PyVal.s "") := by
  have hbase := filterMap_filter_col (fun x => compareCell chv x (va x) (vb x))
    (fun x r h => compareCell_coluna h) compCols hnd c
  rw [if_pos hc] at hbase
  constructor
  · rintro ⟨h1, h2⟩
    rw [hbase]
    simp [compareCell, h1, h2]
  · intro hne
    rw [hbase]
    cases hva : isna (va c) with
    | false =>
      cases hvb : isna (vb c) with
      | false => exact absurd (hva.trans hvb.symm) hne
      | true =>
        have hcc : compareCell chv c (va c) (vb c) = some
            { chave := chv, tipo := "VALOR_DIFERENTE", coluna := c,
              valor_base1 := va c, valor_base2 := PyVal.s "NULL",
              descricao := "Divergência na chave " ++ chv ++ ", coluna \"" ++ c ++ "\"" } := by
          simp [compareCell, hva, hvb]
        refine ⟨_, by rw [hcc]; rfl, rfl, fun _ => rfl,
          fun h => absurd h (by decide),
          fun h => absurd h (by decide),
          fun _ => rfl,
          by decide, by decide⟩
    | true =>
      cases hvb : isna (vb c) with
      | false =>
        have hcc : compareCell chv c (va c) (vb c) = some
            { chave := chv, tipo := "VALOR_DIFERENTE", coluna := c,
              valor_base1 := PyVal.s "NULL", valor_base2 := vb c,
              descricao := "Divergência na chave " ++ chv ++ ", coluna \"" ++ c ++ "\"" } := by
          simp [compareCell, hva, hvb]
        refine ⟨_, by rw [hcc]; rfl, rfl,
          fun h => absurd h (by decide),
          fun _ => rfl,
          fun _ => rfl,
          fun h => absurd h (by decide),
          by decide, by decide⟩
      | true => exact absurd (hva.trans hvb.symm) hne

/-- C1 witness: the claim instantiated at a one-column pair whose A-side
cell is null and whose B-side cell is the string "x". -/
theorem c1_null_cell_semantics_witness :
    isna PyVal.null ≠ isna (PyVal.s "x") ∧
    ((["v"].filterMap (fun x =>
        compareCell "7" x ((fun _ => PyVal.null) x) ((fun _ => PyVal.s "x") x))).filter
      (fun r => r.coluna == "v")).length = 1 := by
  have h := (c1_null_cell_semantics ["v"] (by decide) "v" (by decide) "7"
    (fun _ => PyVal.null) (fun _ => PyVal.s "x")).2 (by decide)
  obtain ⟨r, hr, _⟩ := h
  refine ⟨by decide, ?_⟩
  rw [hr]
  rfl

theorem getSuffixed_some {c1 c2 keys : List String} {c : String}
    (h1 : c ∈ c1) (h2 : c ∈ c2) (h3 : c ∉ keys) (own : List String) (row : List PyVal) :
    getSuffixed c1 c2 keys c own row = some (lookupCell own row c) := by
  simp [getSuffixed]
  exact ⟨h1, h2, h3⟩

theorem collectCells_ok (c1 c2 keys : List String) (km : String ⊕ List String)
    (k ra rb : List PyVal) (L : List String)
    (h : ∀ c ∈ L, c ∈ c1 ∧ c ∈ c2 ∧ c ∉ keys) :
    collectCells c1 c2 keys km k ra rb L =
      Except.ok (L.filterMap (fun c =>
        compareCell (renderKey km k) c (lookupCell c1 ra c) (lookupCell c2 rb c))) := by
  induction L with
  | nil => rfl
  | cons c cs ih =>
    obtain ⟨h1, h2, h3⟩ := h c (List.mem_cons_self c cs)
    have hrec := ih (fun x hx => h x (List.mem_cons_of_mem c hx))
    have hfm : List.filterMap (fun x =>
          compareCell (renderKey km k) x (lookupCell c1 ra x) (lookupCell c2 rb x)) (c :: cs) =
        (compareCell (renderKey km k) c (lookupCell c1 ra c) (lookupCell c2 rb c)).toList ++
        List.filterMap (fun x =>
          compareCell (renderKey km k) x (lookupCell c1 ra x) (lookupCell c2 rb x)) cs := by
      cases hcc : compareCell (renderKey km k) c (lookupCell c1 ra c) (lookupCell c2 rb c) with
      | none => simp [List.filterMap_cons, hcc]
      | some r => simp [List.filterMap_cons, hcc]
    unfold collectCells
    rw [getSuffixed_some h1 h2 h3, getSuffixed_some h1 h2 h3, hrec, hfm]

theorem collectBoth_ok (c1 c2 keys : List String) (km : String ⊕ List String)
    (compCols : List String)
    (h : ∀ c ∈ compCols, c ∈ c1 ∧ c ∈ c2 ∧ c ∉ keys) :
    ∀ ms : List MRow, collectBoth c1 c2 keys km compCols ms =
      Except.ok (ms.flatMap (bothRecords c1 c2 km compCols)) := by
  intro ms
  induction ms with
  | nil => rfl
  | cons m rest ih =>
    cases m with
    | both k ra rb =>
      unfold collectBoth
      rw [collectCells_ok c1 c2 keys km k ra rb compCols h, ih, List.flatMap_cons]
      rfl
    | leftOnly k ra =>
      unfold collectBoth
      rw [ih, List.flatMap_cons]
      rfl
    | rightOnly k rb =>
      unfold collectBoth
      rw [ih, List.flatMap_cons]
      rfl

theorem comparisonCols_single_cond {A B : Table} {s : String}
    (hsub : ∀ c ∈ A.cols, c ∈ B.cols) :
    ∀ c ∈ comparisonCols A.cols (Sum.inl s), c ∈ A.cols ∧ c ∈ B.cols ∧ c ∉ [s] := by
  intro c hc
  have h1 := (List.mem_filter.1 hc).1
  have h2 := (List.mem_filter.1 hc).2
  refine ⟨h1, hsub c h1, ?_⟩
  rw [Bool.and_eq_true] at h2
  have hne : c ≠ s := by
    intro he
    rw [he] at h2
    simp at h2
  simp [hne]

theorem identificar_single_ok (A B : Table) (s : String)
    (hsA : s ∈ A.cols) (hsB : s ∈ B.cols) (hsub : ∀ c ∈ A.cols, c ∈ B.cols) :
    identificar A B (KeySpec.single s) = Except.ok (mergePathRecords A B s) := by
  have hm : pdMerge A B [s] = Except.ok (mergeRows A.cols A.rows B.cols B.rows [s]) := by
    simp [pdMerge]
    exact ⟨hsA, hsB⟩
  have hcb := collectBoth_ok A.cols B.cols [s] (Sum.inl s)
    (comparisonCols A.cols (Sum.inl s)) (comparisonCols_single_cond hsub)
    ((mergeRows A.cols A.rows B.cols B.rows [s]).filter isBoth)
  simp only [identificar, preparar, keyColsOf, hm, hcb, mergePathRecords]

/-- The list of divergence lists the merge path emits never raises for a
single key column present in both frames; packaged as runRecords. -/
theorem runRecords_single (A B : Table) (s : String)
    (hsA : s ∈ A.cols) (hsB : s ∈ B.cols) (hsub : ∀ c ∈ A.cols, c ∈ B.cols) :
    runRecords A B (KeySpec.single s) = mergePathRecords A B s := by
  unfold runRecords
  rw [identificar_single_ok A B s hsA hsB hsub]

theorem sameColSet_mem {a b : List String} (h : sameColSet a b = true) :
    ∀ c, c ∈ a ↔ c ∈ b := by
  unfold sameColSet at h
  rw [Bool.and_eq_true, List.all_eq_true, List.all_eq_true] at h
  intro c
  constructor
  · intro hc
    exact (contains_iff b c).1 (h.1 c hc)
  · intro hc
    exact (contains_iff a c).1 (h.2 c hc)

theorem enumInter_mem {l a b : List String} (h : enumInter l a b) :
    ∀ c, c ∈ l ↔ (c ∈ a ∧ c ∈ b) := by
  intro c
  constructor
  · intro hc
    have ha := h.2.2 c hc
    exact ⟨ha, (h.2.1 c ha).1 hc⟩
  · rintro ⟨ha, hb⟩
    exact (h.2.1 c ha).2 hb

theorem fastApplicable_single (A B : Table) (s : String) :
    fastApplicable A B (KeySpec.single s) = false := by
  have hk : (KeySpec.single s == KeySpec.none) = false := by
    rw [beq_eq_false_iff_ne]
    intro h
    exact KeySpec.noConfusion h
  simp [fastApplicable, hk]

theorem identificar_missing_key (A B : Table) (s : String) (hk : s ∉ A.cols ∨ s ∉ B.cols) :
    identificar A B (KeySpec.single s) =
      Except.error "KeyError: merge key column not found in frame" := by
  have hcond : ¬ (s ∈ A.cols ∧ s ∈ B.cols) := by
    cases hk with
    | inl h => exact fun hc => h hc.1
    | inr h => exact fun hc => h hc.2
  simp [identificar, preparar, keyColsOf, pdMerge, hcond]

/-- C4: when the requested key column is missing from one or both input
tables, the run surfaces an error (the KeyError pandas merge raises when a
join key is absent) before any alignment pair is produced; it does not fall
back to the positional path. -/
theorem c4_missing_key_column_errors (σ : SetOrders) (A B : Table) (k : String)
    (hσ : enumInter σ.inter A.cols B.cols)
    (hk : k ∉ A.cols ∨ k ∉ B.cols) :
    reconciliar σ A B (KeySpec.single k) =
      Except.error "KeyError: merge key column not found in frame" := by
  unfold reconciliar validar
  by_cases hsame : sameColSet A.cols B.cols
  · rw [if_pos hsame]
    have hkA : k ∉ A.cols := by
      cases hk with
      | inl h => exact h
      | inr h => exact fun hc => h ((sameColSet_mem hsame k).1 hc)
    simp only [fastApplicable_single, Bool.false_eq_true, if_false]
    exact identificar_missing_key A B k (Or.inl hkA)
  · rw [if_neg hsame]
    have hkI : k ∉ σ.inter := by
      intro hc
      have := (enumInter_mem hσ k).1 hc
      cases hk with
      | inl h => exact h this.1
      | inr h => exact h this.2
    simp only [fastApplicable_single, Bool.false_eq_true, if_false]
    exact identificar_missing_key _ _ k (Or.inl hkI)

/-- C4 witness: the theorem applied to a table pair lacking the requested
key column z. -/
theorem c4_missing_key_column_errors_witness :
    reconciliar ⟨["a"], [], []⟩ tblC4 tblC4 (KeySpec.single "z") =
      Except.error "KeyError: merge key column not found in frame" :=
  c4_missing_key_column_errors ⟨["a"], [], []⟩ tblC4 tblC4 "z" (by decide)
    (Or.inl (by decide))

theorem filterMap_eq_nil_of {α β : Type} (f : α → Option β) (l : List α)
    (h : ∀ a ∈ l, f a = none) : l.filterMap f = [] := by
  induction l with
  | nil => rfl
  | cons x xs ih =>
    rw [List.filterMap_cons_none (h x (List.mem_cons_self x xs))]
    exact ih (fun a ha => h a (List.mem_cons_of_mem x ha))

theorem flatMap_eq_nil_of {α β : Type} (f : α → List β) (l : List α)
    (h : ∀ a ∈ l, f a = []) : l.flatMap f = [] := by
  induction l with
  | nil => rfl
  | cons x xs ih =>
    rw [List.flatMap_cons, h x (List.mem_cons_self x xs)]
    exact ih (fun a ha => h a (List.mem_cons_of_mem x ha))

theorem flatMap_eq_map_of {α β : Type} (f : α → List β) (g : α → β) (l : List α)
    (h : ∀ a ∈ l, f a = [g a]) : l.flatMap f = l.map g := by
  induction l with
  | nil => rfl
  | cons x xs ih =>
    rw [List.flatMap_cons, h x (List.mem_cons_self x xs), List.map_cons]
    rw [ih (fun a ha => h a (List.mem_cons_of_mem x ha))]
    rfl

theorem fastRecords_nil (A B : Table) : fastRecords A B = [] := by
  unfold fastRecords
  have hguard : ∀ c : String,
      ((A.cols.map PLabel.single).contains (PLabel.pair c "self")) = false := by
    intro c
    rw [← Bool.not_eq_true]
    intro hc
    have hm : PLabel.pair c "self" ∈ A.cols.map PLabel.single := List.elem_iff.1 hc
    obtain ⟨a, _, ha⟩ := List.mem_map.1 hm
    exact PLabel.noConfusion ha
  refine flatMap_eq_nil_of _ _ (fun idx _ => ?_)
  refine filterMap_eq_nil_of _ _ (fun c _ => ?_)
  simp [hguard]

theorem sameColSet_self (l : List String) : sameColSet l l = true := by
  simp [sameColSet, List.all_eq_true, List.elem_iff]

theorem fastApplicable_none_self (T : Table) : fastApplicable T T KeySpec.none = true := by
  simp [fastApplicable]

theorem filter_beq_self {α β : Type} [BEq β] [LawfulBEq β] (f : α → β) :
    ∀ (l : List α), (l.map f).Nodup → ∀ a ∈ l, l.filter (fun x => f x == f a) = [a] := by
  intro l
  induction l with
  | nil => intro _ a ha; cases ha
  | cons x xs ih =>
    intro hnd a ha
    have hnd2 : (f x :: xs.map f).Nodup := by simpa using hnd
    have hx : f x ∉ xs.map f := (List.nodup_cons.1 hnd2).1
    have hxs : (xs.map f).Nodup := (List.nodup_cons.1 hnd2).2
    rw [List.filter_cons]
    cases List.mem_cons.1 ha with
    | inl hax =>
      subst hax
      rw [if_pos (by simp)]
      have hnil : xs.filter (fun x2 => f x2 == f a) = [] := by
        rw [List.filter_eq_nil_iff]
        intro b hb hbeq
        have hfb : f b = f a := by
          have := beq_iff_eq.1 hbeq
          exact this
        exact hx (hfb ▸ List.mem_map_of_mem f hb)
      rw [hnil]
    | inr haxs =>
      have hne : (f x == f a) = false := by
        rw [beq_eq_false_iff_ne]
        intro he
        exact hx (he ▸ List.mem_map_of_mem f haxs)
      rw [if_neg (by simp [hne])]
      have hxsnd : (xs.map f).Nodup := hxs
      exact ih hxsnd a haxs

theorem mergeRows_self_diag (cols : List String) (rows : List (List PyVal))
    (keys : List String)
    (hnd : (rows.map (fun r => keyOf cols keys r)).Nodup) :
    mergeRows cols rows cols rows keys =
      rows.map (fun r => MRow.both (keyOf cols keys r) r r) := by
  unfold mergeRows
  have hleft : rows.flatMap (fun ra =>
      let ms := rows.filter (fun rb => keyOf cols keys rb == keyOf cols keys ra)
      if ms.isEmpty then [MRow.leftOnly (keyOf cols keys ra) ra]
      else ms.map (fun rb => MRow.both (keyOf cols keys ra) ra rb)) =
      rows.map (fun r => MRow.both (keyOf cols keys r) r r) := by
    refine flatMap_eq_map_of _ _ _ (fun ra hra => ?_)
    have hms : rows.filter (fun rb => keyOf cols keys rb == keyOf cols keys ra) = [ra] :=
      filter_beq_self (fun r => keyOf cols keys r) rows hnd ra hra
    simp [hms]
  have hright : (rows.filter (fun rb =>
      rows.all (fun ra => !(keyOf cols keys ra == keyOf cols keys rb)))) = [] := by
    rw [List.filter_eq_nil_iff]
    intro rb hrb hall
    have := (List.all_eq_true.1 hall) rb hrb
    simp at this
  rw [hleft, hright]
  simp

theorem mergePathRecords_self (T : Table) (s : String)
    (hnd : (T.rows.map (fun r => lookupCell T.cols r s)).Nodup) :
    mergePathRecords T T s = [] := by
  have hnd2 : (T.rows.map (fun r => keyOf T.cols [s] r)).Nodup := by
    have he : (T.rows.map (fun r => keyOf T.cols [s] r)) =
        (T.rows.map (fun r => lookupCell T.cols r s)).map (fun v => [v]) := by
      rw [List.map_map]
      rfl
    rw [he]
    exact hnd.map (fun a b h => by injection h)
  have hdiag := mergeRows_self_diag T.cols T.rows [s] hnd2
  simp only [mergePathRecords]
  rw [hdiag]
  have h2 : (T.rows.map (fun r => MRow.both (keyOf T.cols [s] r) r r)).filterMap
      (faltRecB2 (Sum.inl s)) = [] := by
    refine filterMap_eq_nil_of _ _ (fun m hm => ?_)
    obtain ⟨r, _, he⟩ := List.mem_map.1 hm
    rw [← he]
    rfl
  have h3 : (T.rows.map (fun r => MRow.both (keyOf T.cols [s] r) r r)).filterMap
      (faltRecB1 (Sum.inl s)) = [] := by
    refine filterMap_eq_nil_of _ _ (fun m hm => ?_)
    obtain ⟨r, _, he⟩ := List.mem_map.1 hm
    rw [← he]
    rfl
  have h4 : (T.rows.map (fun r => MRow.both (keyOf T.cols [s] r) r r)).filter isBoth =
      T.rows.map (fun r => MRow.both (keyOf T.cols [s] r) r r) := by
    rw [List.filter_eq_self]
    intro m hm
    obtain ⟨r, _, he⟩ := List.mem_map.1 hm
    rw [← he]
    rfl
  have h5 : (T.rows.map (fun r => MRow.both (keyOf T.cols [s] r) r r)).flatMap
      (bothRecords T.cols T.cols (Sum.inl s) (comparisonCols T.cols (Sum.inl s))) = [] := by
    refine flatMap_eq_nil_of _ _ (fun m hm => ?_)
    obtain ⟨r, _, he⟩ := List.mem_map.1 hm
    rw [← he]
    unfold bothRecords
    refine filterMap_eq_nil_of _ _ (fun c _ => ?_)
    exact compareCell_self _ _ _
  rw [h2, h3, h4, h5]
  rfl

/-- C5 amended: reconciling a table against itself yields no divergences
for positional alignment, and for a single-column key whose values are
unique within the table; the claim's unrestricted form fails for
duplicate keys (see the counterexample). -/
theorem c5_self_reconcile_amended (σ : SetOrders) (T : Table) (s : String)
    (hs : s ∈ T.cols)
    (hnd : (T.rows.map (fun r => lookupCell T.cols r s)).Nodup) :
    reconciliar σ T T KeySpec.none = Except.ok [] ∧
    identificar T T (KeySpec.single s) = Except.ok [] ∧
    reconciliar σ T T (KeySpec.single s) = Except.ok [] := by
  have hid : identificar T T (KeySpec.single s) = Except.ok [] := by
    rw [identificar_single_ok T T s hs hs (fun c hc => hc),
      mergePathRecords_self T s hnd]
  refine ⟨?_, hid, ?_⟩
  · unfold reconciliar validar
    rw [if_pos (sameColSet_self T.cols)]
    show (if fastApplicable T T KeySpec.none = true then Except.ok (fastRecords T T)
      else identificar T T KeySpec.none) = Except.ok []
    rw [if_pos (fastApplicable_none_self T)]
    rw [fastRecords_nil]
  · unfold reconciliar validar
    rw [if_pos (sameColSet_self T.cols)]
    show (if fastApplicable T T (KeySpec.single s) = true
        then Except.ok (fastRecords T T)
        else identificar T T (KeySpec.single s)) = Except.ok []
    simp only [fastApplicable_single, Bool.false_eq_true, if_false]
    exact hid

/-- C5 amended witness: the theorem applied to a two-row table with unique
keys. -/
theorem c5_self_reconcile_amended_witness :
    reconciliar ⟨[], [], []⟩ tblC5u tblC5u KeySpec.none = Except.ok [] ∧
    identificar tblC5u tblC5u (KeySpec.single "k") = Except.ok [] := by
  have h := c5_self_reconcile_amended ⟨[], [], []⟩ tblC5u "k" (by decide) (by decide)
  exact ⟨h.1, h.2.1⟩

theorem lookupCell_map_self (cs : List String) (f : String → PyVal) (c : String)
    (hc : c ∈ cs) : lookupCell cs (cs.map f) c = f c := by
  induction cs with
  | nil => cases hc
  | cons x xs ih =>
    rw [List.map_cons]
    show (if x == c then f x else lookupCell xs (List.map f xs) c) = f c
    by_cases hxc : x = c
    · subst hxc
      rw [if_pos (by simp)]
    · rw [if_neg (by simp [hxc])]
      refine ih ?_
      cases List.mem_cons.1 hc with
      | inl h => exact absurd h.symm hxc
      | inr h => exact h

/-- C8 amended: when the column sets differ, both tables are projected
onto the common columns in a single shared order — the set-iteration
order of the run, which need not follow table A's column order (see the
counterexample); membership is set-intersection semantics and the cell
values of the projected rows are the original cells. -/
theorem c8_projection_amended (σ : SetOrders) (A B : Table)
    (hσ : enumInter σ.inter A.cols B.cols)
    (hdiff : sameColSet A.cols B.cols = false) :
    (validar σ A B).1.cols = σ.inter ∧
    (validar σ A B).2.cols = σ.inter ∧
    (∀ c, c ∈ (validar σ A B).1.cols ↔ (c ∈ A.cols ∧ c ∈ B.cols)) ∧
    (validar σ A B).1.rows =
      A.rows.map (fun r => σ.inter.map (fun c => lookupCell A.cols r c)) ∧
    (∀ r, ∀ c ∈ σ.inter,
      lookupCell σ.inter (σ.inter.map (fun x => lookupCell A.cols r x)) c =
        lookupCell A.cols r c) := by
  have hv : validar σ A B = (projectTable A σ.inter, projectTable B σ.inter) := by
    unfold validar
    rw [if_neg (by simp [hdiff])]
  rw [hv]
  refine ⟨rfl, rfl, ?_, rfl, ?_⟩
  · intro c
    exact enumInter_mem hσ c
  · intro r c hc
    exact lookupCell_map_self σ.inter _ c hc

/-- C8 amended witness: the amended projection contract at the concrete
tables of the counterexample. -/
theorem c8_projection_amended_witness :
    (validar ordC8 tblC8A tblC8B).1.cols = ordC8.inter ∧
    (validar ordC8 tblC8A tblC8B).2.cols = ordC8.inter := by
  have h := c8_projection_amended ordC8 tblC8A tblC8B (by decide) (by decide)
  exact ⟨h.1, h.2.1⟩

theorem sameColSet_symm {a b : List String} (h : sameColSet a b = true) :
    sameColSet b a = true := by
  unfold sameColSet at *
  rw [Bool.and_eq_true] at h
  rw [Bool.and_eq_true]
  exact ⟨h.2, h.1⟩

theorem enumDiff_nil_of_same {l a b : List String} (hsame : sameColSet a b = true)
    (h : enumDiff l a b) : l = [] := by
  rw [List.eq_nil_iff_forall_not_mem]
  intro c hc
  have ha : c ∈ a := h.2.2 c hc
  have hb : c ∈ b := (sameColSet_mem hsame c).1 ha
  exact ((h.2.1 c ha).1 hc) hb

/-- C9 amended: the run is deterministic given identical inputs, the key
specification, and the interpreter's set-iteration order; when the two
column sets are equal the output does not depend on that order at all
(and both dropped-column lists are forced empty), but when they differ
the ordered divergence sequence follows the unspecified set order (see
the counterexample). -/
theorem c9_determinism_amended (σ1 σ2 : SetOrders) (A B : Table) (key : KeySpec)
    (hsame : sameColSet A.cols B.cols = true) :
    reconciliar σ1 A B key = reconciliar σ2 A B key ∧
    (enumDiff σ1.only1 A.cols B.cols → enumDiff σ2.only1 A.cols B.cols →
      σ1.only1 = σ2.only1) ∧
    (enumDiff σ1.only2 B.cols A.cols → enumDiff σ2.only2 B.cols A.cols →
      σ1.only2 = σ2.only2) := by
  refine ⟨?_, ?_, ?_⟩
  · unfold reconciliar validar
    rw [if_pos hsame, if_pos hsame]
  · intro h1 h2
    rw [enumDiff_nil_of_same hsame h1, enumDiff_nil_of_same hsame h2]
  · intro h1 h2
    rw [enumDiff_nil_of_same (sameColSet_symm hsame) h1,
      enumDiff_nil_of_same (sameColSet_symm hsame) h2]

/-- C9 amended witness: two runs with different set orders agree on a
pair of tables with equal column sets. -/
theorem c9_determinism_amended_witness :
    reconciliar ⟨["q"], ["r"], ["t"]⟩ tblC9eqA tblC9eqB KeySpec.none =
      reconciliar ⟨[], [], []⟩ tblC9eqA tblC9eqB KeySpec.none :=
  (c9_determinism_amended ⟨["q"], ["r"], ["t"]⟩ ⟨[], [], []⟩ tblC9eqA tblC9eqB
    KeySpec.none (by decide)).1

theorem countP_ext {α : Type} (p q : α → Bool) (l : List α)
    (h : ∀ a ∈ l, p a = q a) : l.countP p = l.countP q := by
  induction l with
  | nil => rfl
  | cons x xs ih =>
    rw [List.countP_cons, List.countP_cons, h x (List.mem_cons_self x xs),
      ih (fun a ha => h a (List.mem_cons_of_mem x ha))]

theorem countP_faltB2 (km : String ⊕ List String) (c1 c2 : List String)
    (keys : List String) (rs2 : List (List PyVal)) (p : Record → Bool)
    (rs1 : List (List PyVal)) :
    ((mergeRows c1 rs1 c2 rs2 keys).filterMap (faltRecB2 km)).countP p =
      rs1.countP (fun ra =>
        ((rs2.filter (fun rb => keyOf c2 keys rb == keyOf c1 keys ra)).isEmpty)
        && p (mkFaltB2 km (keyOf c1 keys ra))) := by
  unfold mergeRows
  rw [List.filterMap_append, List.countP_append]
  have hright : ((rs2.filter (fun rb =>
      rs1.all (fun ra => !(keyOf c1 keys ra == keyOf c2 keys rb)))).map
      (fun rb => MRow.rightOnly (keyOf c2 keys rb) rb)).filterMap (faltRecB2 km) = [] := by
    refine filterMap_eq_nil_of _ _ (fun m hm => ?_)
    obtain ⟨rb, _, he⟩ := List.mem_map.1 hm
    rw [← he]
    rfl
  rw [hright, List.countP_nil, Nat.add_zero]
  clear hright
  induction rs1 with
  | nil => rfl
  | cons ra rest ih =>
    rw [List.flatMap_cons, List.filterMap_append, List.countP_append, ih,
      List.countP_cons]
    have hhead : ((let ms := rs2.filter (fun rb => keyOf c2 keys rb == keyOf c1 keys ra)
        if ms.isEmpty then [MRow.leftOnly (keyOf c1 keys ra) ra]
        else ms.map (fun rb => MRow.both (keyOf c1 keys ra) ra rb)).filterMap
          (faltRecB2 km)).countP p =
        if ((rs2.filter (fun rb => keyOf c2 keys rb == keyOf c1 keys ra)).isEmpty
            && p (mkFaltB2 km (keyOf c1 keys ra))) = true then 1 else 0 := by
      by_cases hE : (rs2.filter (fun rb =>
          keyOf c2 keys rb == keyOf c1 keys ra)).isEmpty = true
      · simp only [hE, if_true, Bool.true_and]
        rw [List.filterMap_cons_some
          (show faltRecB2 km (MRow.leftOnly (keyOf c1 keys ra) ra) =
            some (mkFaltB2 km (keyOf c1 keys ra)) from rfl)]
        simp [List.countP_cons]
      · have hE2 : (rs2.filter (fun rb =>
            keyOf c2 keys rb == keyOf c1 keys ra)).isEmpty = false :=
          Bool.not_eq_true _ ▸ (by simpa using hE)
        simp only [hE2, Bool.false_and, Bool.false_eq_true, if_false]
        have hnil : ((rs2.filter (fun rb =>
            keyOf c2 keys rb == keyOf c1 keys ra)).map
            (fun rb => MRow.both (keyOf c1 keys ra) ra rb)).filterMap
              (faltRecB2 km) = [] := by
          refine filterMap_eq_nil_of _ _ (fun m hm => ?_)
          obtain ⟨rb, _, he⟩ := List.mem_map.1 hm
          rw [← he]
          rfl
        rw [hnil, List.countP_nil]
    rw [hhead]
    omega

theorem countP_faltB1 (km : String ⊕ List String) (c1 c2 : List String)
    (keys : List String) (rs1 rs2 : List (List PyVal)) (p : Record → Bool) :
    ((mergeRows c1 rs1 c2 rs2 keys).filterMap (faltRecB1 km)).countP p =
      rs2.countP (fun rb =>
        p (mkFaltB1 km (keyOf c2 keys rb)) &&
        rs1.all (fun ra => !(keyOf c1 keys ra == keyOf c2 keys rb))) := by
  unfold mergeRows
  rw [List.filterMap_append, List.countP_append]
  have hleft : ((rs1.flatMap (fun ra =>
      let ms := rs2.filter (fun rb => keyOf c2 keys rb == keyOf c1 keys ra)
      if ms.isEmpty then [MRow.leftOnly (keyOf c1 keys ra) ra]
      else ms.map (fun rb => MRow.both (keyOf c1 keys ra) ra rb))).filterMap
        (faltRecB1 km)) = [] := by
    refine filterMap_eq_nil_of _ _ (fun m hm => ?_)
    obtain ⟨ra, _, hma⟩ := List.mem_flatMap.1 hm
    by_cases hE : (rs2.filter (fun rb =>
        keyOf c2 keys rb == keyOf c1 keys ra)).isEmpty = true
    · simp only [hE, if_true] at hma
      cases List.mem_singleton.1 hma
      rfl
    · have hE2 : (rs2.filter (fun rb =>
          keyOf c2 keys rb == keyOf c1 keys ra)).isEmpty = false :=
        Bool.not_eq_true _ ▸ (by simpa using hE)
      simp only [hE2, Bool.false_eq_true, if_false] at hma
      obtain ⟨rb, _, he⟩ := List.mem_map.1 hma
      rw [← he]
      rfl
  rw [hleft, List.countP_nil, Nat.zero_add]
  have hmapform : ((rs2.filter (fun rb =>
      rs1.all (fun ra => !(keyOf c1 keys ra == keyOf c2 keys rb)))).map
      (fun rb => MRow.rightOnly (keyOf c2 keys rb) rb)).filterMap (faltRecB1 km) =
      (rs2.filter (fun rb =>
        rs1.all (fun ra => !(keyOf c1 keys ra == keyOf c2 keys rb)))).map
        (fun rb => mkFaltB1 km (keyOf c2 keys rb)) := by
    generalize rs2.filter (fun rb =>
      rs1.all (fun ra => !(keyOf c1 keys ra == keyOf c2 keys rb))) = l
    induction l with
    | nil => rfl
    | cons x xs ih =>
      rw [List.map_cons, List.filterMap_cons_some
        (show faltRecB1 km (MRow.rightOnly (keyOf c2 keys x) x) =
          some (mkFaltB1 km (keyOf c2 keys x)) from rfl), ih, List.map_cons]
  rw [hmapform, List.countP_map, List.countP_filter]
  rfl

/-- C6: if exactly one row of A carries key value k (rendered sk) and no
row of B carries k, then reconciling (A, B) emits exactly one
LINHA_FALTANDO_BASE2 record with chave sk, and reconciling (B, A) emits
exactly one LINHA_FALTANDO_BASE1 record with chave sk — the kind labels
swap with the argument order and the per-kind counts agree. -/
theorem c6_row_missing_symmetry (A B : Table) (s : String) (kv : PyVal)
    (ra0 : List PyVal)
    (hsA : s ∈ A.cols) (hsB : s ∈ B.cols)
    (hsubAB : ∀ c ∈ A.cols, c ∈ B.cols) (hsubBA : ∀ c ∈ B.cols, c ∈ A.cols)
    (hA : A.rows.filter
      (fun r => pyToString (lookupCell A.cols r s) == pyToString kv) = [ra0])
    (hk : lookupCell A.cols ra0 s = kv)
    (hB : ∀ r ∈ B.rows, lookupCell B.cols r s ≠ kv) :
    (runRecords A B (KeySpec.single s)).countP
      (fun r => r.tipo == "LINHA_FALTANDO_BASE2" && r.chave == pyToString kv) = 1 ∧
    (runRecords B A (KeySpec.single s)).countP
      (fun r => r.tipo == "LINHA_FALTANDO_BASE1" && r.chave == pyToString kv) = 1 := by
  have hBkey : ∀ rb ∈ B.rows,
      (keyOf B.cols [s] rb == keyOf A.cols [s] ra0) = false := by
    intro rb hrb
    rw [beq_eq_false_iff_ne]
    intro he
    have : lookupCell B.cols rb s = lookupCell A.cols ra0 s := by
      have h2 : [lookupCell B.cols rb s] = [lookupCell A.cols ra0 s] := he
      injection h2
    exact hB rb hrb (hk ▸ this)
  constructor
  · rw [runRecords_single A B s hsA hsB hsubAB]
    simp only [mergePathRecords]
    rw [List.countP_append, List.countP_append]
    have hz1 : ((mergeRows A.cols A.rows B.cols B.rows [s]).filterMap
        (faltRecB1 (Sum.inl s))).countP
        (fun r => r.tipo == "LINHA_FALTANDO_BASE2" && r.chave == pyToString kv) = 0 := by
      rw [List.countP_eq_zero]
      intro r hr
      obtain ⟨m, _, he⟩ := List.mem_filterMap.1 hr
      cases m with
      | both k ra rb => exact absurd he (by simp [faltRecB1])
      | leftOnly k ra => exact absurd he (by simp [faltRecB1])
      | rightOnly k rb =>
        have hre : r = mkFaltB1 (Sum.inl s) k := by
          have := he
          simp [faltRecB1] at this
          exact this.symm
        rw [hre]
        simp [mkFaltB1]
    have hz2 : (((mergeRows A.cols A.rows B.cols B.rows [s]).filter isBoth).flatMap
        (bothRecords A.cols B.cols (Sum.inl s)
          (comparisonCols A.cols (Sum.inl s)))).countP
        (fun r => r.tipo == "LINHA_FALTANDO_BASE2" && r.chave == pyToString kv) = 0 := by
      rw [List.countP_eq_zero]
      intro r hr
      obtain ⟨m, _, hrm⟩ := List.mem_flatMap.1 hr
      cases m with
      | both k ra rb =>
        simp only [bothRecords] at hrm
        obtain ⟨c, _, hc⟩ := List.mem_filterMap.1 hrm
        have ht := compareCell_tipo hc
        rw [ht]
        simp
      | leftOnly k ra => simp [bothRecords] at hrm
      | rightOnly k rb => simp [bothRecords] at hrm
    rw [hz1, hz2]
    simp only [Nat.add_zero]
    rw [countP_faltB2]
    show A.rows.countP (fun ra =>
      ((B.rows.filter (fun rb => keyOf B.cols [s] rb == keyOf A.cols [s] ra)).isEmpty)
      && (pyToString (lookupCell A.cols ra s) == pyToString kv)) = 1
    rw [← List.countP_filter, hA, List.countP_cons, List.countP_nil]
    have hE : (B.rows.filter
        (fun rb => keyOf B.cols [s] rb == keyOf A.cols [s] ra0)).isEmpty = true := by
      rw [List.filter_eq_nil_iff.2 (fun rb hrb => by rw [hBkey rb hrb]; exact fun h => absurd h (by decide))]
      rfl
    rw [hE]
    rfl
  · rw [runRecords_single B A s hsB hsA hsubBA]
    simp only [mergePathRecords]
    rw [List.countP_append, List.countP_append]
    have hz1 : ((mergeRows B.cols B.rows A.cols A.rows [s]).filterMap
        (faltRecB2 (Sum.inl s))).countP
        (fun r => r.tipo == "LINHA_FALTANDO_BASE1" && r.chave == pyToString kv) = 0 := by
      rw [List.countP_eq_zero]
      intro r hr
      obtain ⟨m, _, he⟩ := List.mem_filterMap.1 hr
      cases m with
      | both k ra rb => exact absurd he (by simp [faltRecB2])
      | rightOnly k rb => exact absurd he (by simp [faltRecB2])
      | leftOnly k ra =>
        have hre : r = mkFaltB2 (Sum.inl s) k := by
          have := he
          simp [faltRecB2] at this
          exact this.symm
        rw [hre]
        simp [mkFaltB2]
    have hz2 : (((mergeRows B.cols B.rows A.cols A.rows [s]).filter isBoth).flatMap
        (bothRecords B.cols A.cols (Sum.inl s)
          (comparisonCols B.cols (Sum.inl s)))).countP
        (fun r => r.tipo == "LINHA_FALTANDO_BASE1" && r.chave == pyToString kv) = 0 := by
      rw [List.countP_eq_zero]
      intro r hr
      obtain ⟨m, _, hrm⟩ := List.mem_flatMap.1 hr
      cases m with
      | both k ra rb =>
        simp only [bothRecords] at hrm
        obtain ⟨c, _, hc⟩ := List.mem_filterMap.1 hrm
        have ht := compareCell_tipo hc
        rw [ht]
        simp
      | leftOnly k ra => simp [bothRecords] at hrm
      | rightOnly k rb => simp [bothRecords] at hrm
    rw [hz1, hz2]
    simp only [Nat.add_zero, Nat.zero_add]
    rw [countP_faltB1]
    show A.rows.countP (fun rb =>
      (pyToString (lookupCell A.cols rb s) == pyToString kv)
      && (B.rows.all (fun ra => !(keyOf B.cols [s] ra == keyOf A.cols [s] rb)))) = 1
    rw [countP_ext _ (fun rb =>
        (B.rows.all (fun ra => !(keyOf B.cols [s] ra == keyOf A.cols [s] rb)))
        && (pyToString (lookupCell A.cols rb s) == pyToString kv)) _
      (fun rb _ => Bool.and_comm _ _)]
    rw [← List.countP_filter, hA, List.countP_cons, List.countP_nil]
    have hall : (B.rows.all
        (fun ra => !(keyOf B.cols [s] ra == keyOf A.cols [s] ra0))) = true := by
      rw [List.all_eq_true]
      intro ra hra
      rw [hBkey ra hra]
      rfl
    rw [hall]
    rfl

/-- C6 witness: the theorem at a concrete pair where A has the extra row
with key 2. -/
theorem c6_row_missing_symmetry_witness :
    (runRecords tblC6A tblC6B (KeySpec.single "k")).countP
      (fun r => r.tipo == "LINHA_FALTANDO_BASE2" &&
        r.chave == pyToString (PyVal.i 2)) = 1 ∧
    (runRecords tblC6B tblC6A (KeySpec.single "k")).countP
      (fun r => r.tipo == "LINHA_FALTANDO_BASE1" &&
        r.chave == pyToString (PyVal.i 2)) = 1 :=
  c6_row_missing_symmetry tblC6A tblC6B "k" (PyVal.i 2) [PyVal.i 2, PyVal.i 20]
    (by decide) (by decide) (by decide) (by decide) (by decide) (by decide)
    (by decide)

end Reconciliate
